import Mathlib

/-!
Shallow embedding of the Stage 2 cross-platform reconciliation and scoring
pipeline (`Etape2/selection.py`): the merge of the two source tables, the
row-level preprocessing (price cleaning, availability flag, HTML stripping,
sentinel filling), the attractiveness scoring, the rank derivers and the
persistence stage.  Python floats are modelled as rationals, `None`/`NaN`
cells as `Option`/`Cell.null`.
-/

namespace Selection

/-- `TOP_K_OVERALL = 20`. -/
def TOP_K_OVERALL : ℕ := 20

/-- `FLAGSHIP_PER_STORE = 3`. -/
def FLAGSHIP_PER_STORE : ℕ := 3

/-- `WEIGHT_AVAILABILITY = 0.6`. -/
def WEIGHT_AVAILABILITY : ℚ := 6/10

/-- `WEIGHT_PRICE = 0.4`. -/
def WEIGHT_PRICE : ℚ := 4/10

/-- `DB_BATCH_SIZE = 500`. -/
def DB_BATCH_SIZE : ℕ := 500

/-- One cell of the loosely typed data frame: null (`None`/`NaN`), a number,
or a string. -/
inductive Cell where
  | null : Cell
  | num : ℚ → Cell
  | str : String → Cell
deriving DecidableEq

/-- `pd.isna` on a cell. -/
def Cell.isNull : Cell → Bool
  | Cell.null => true
  | _ => false

/-- A row of the combined data frame built in `__main__` after both raw
frames are projected onto `expected_cols`. -/
structure CombinedRow where
  product_url : Option String
  title : Option String
  vendor : Option String
  price : Cell
  availability : Cell
  description : Cell
  product_category : Option String
  source_store_name : Option String
  source_platform : Option String
  product_tags : Option String
  sku : Option String
deriving DecidableEq

/-- `df.dropna(how='all')` drops a row only when every field is missing. -/
def rowAllNa (r : CombinedRow) : Bool :=
  r.product_url.isNone && r.title.isNone && r.vendor.isNone &&
  r.price.isNull && r.availability.isNull && r.description.isNull &&
  r.product_category.isNone && r.source_store_name.isNone &&
  r.source_platform.isNone && r.product_tags.isNone && r.sku.isNone

/-- `df.drop_duplicates(subset=['product_url'], keep='first')`: keep a row
only when its `product_url` key was not seen earlier. -/
def drop_duplicates_by_url (seen : List (Option String)) :
    List CombinedRow → List CombinedRow
  | [] => []
  | r :: rs =>
    if r.product_url ∈ seen then drop_duplicates_by_url seen rs
    else r :: drop_duplicates_by_url (r.product_url :: seen) rs

/-- The `__main__` merge: Shopify rows are read first, WooCommerce rows
second; the concatenation is cleaned with `dropna(how='all')` and then
deduplicated by `product_url`, keeping the first occurrence. -/
def combine_sources (df_shopify df_woocommerce : List CombinedRow) :
    List CombinedRow :=
  drop_duplicates_by_url []
    ((df_shopify ++ df_woocommerce).filter (fun r => !rowAllNa r))

/-- `re.sub(r'[^\d\.]', '', s)`: keep only digits and decimal points. -/
def cleanPriceChars (s : String) : String :=
  (s.toList.filter (fun c => c.isDigit || c == '.')).asString

/-- Base-10 value of a list of digit characters. -/
def digitsVal (cs : List Char) : ℕ :=
  cs.foldl (fun n c => 10 * n + (c.toNat - 48)) 0

/-- Split a character list at every `'.'` (Python `s.split('.')`). -/
def splitOnDot : List Char → List (List Char)
  | [] => [[]]
  | c :: cs =>
    if c = '.' then [] :: splitOnDot cs
    else
      match splitOnDot cs with
      | [] => [[c]]
      | p :: ps => (c :: p) :: ps

/-- Python `float()` applied to a cleaned digits-and-dots string: it succeeds
when there is at most one decimal point and at least one digit, and yields
the usual decimal value. -/
def parseCleanedPrice (s : String) : Option ℚ :=
  match splitOnDot s.toList with
  | [ip] =>
    if ip ≠ [] ∧ ip.all Char.isDigit then some (digitsVal ip : ℚ) else none
  | [ip, fp] =>
    if (ip ≠ [] ∨ fp ≠ []) ∧ ip.all Char.isDigit ∧ fp.all Char.isDigit then
      some ((digitsVal ip : ℚ) + (digitsVal fp : ℚ) / 10 ^ fp.length)
    else none
  | _ => none

/-- `clean_and_convert_price` from `preprocess_combined_data`: `NaN` stays
`NaN`, a number is kept, a string is stripped of every character that is not
a digit or a decimal point and then parsed; an empty or unparsable cleaned
string yields `NaN` (`none`). -/
def clean_and_convert_price : Cell → Option ℚ
  | Cell.null => none
  | Cell.num q => some q
  | Cell.str s =>
    if cleanPriceChars s = "" then none else parseCleanedPrice (cleanPriceChars s)

/-- Python `s.lower()`: lowercase every character. -/
def lowerStr (s : String) : String :=
  (s.toList.map Char.toLower).asString

/-- The availability lambda: `1 if isinstance(x, str) and x.lower() ==
'available' else 0`. -/
def is_available_numeric_of : Cell → ℕ
  | Cell.str s => if lowerStr s = "available" then 1 else 0
  | _ => 0

/-- One left-to-right pass of `re.sub(re.compile('<.*?>'), '', s)`: on `<`
start buffering; a `>` discards the buffered span, while a newline or the
end of input emits it literally (`.` does not match a newline). -/
def stripTagsGo : Bool → List Char → List Char → List Char
  | false, _, [] => []
  | false, buf, c :: cs =>
    if c = '<' then stripTagsGo true [c] cs else c :: stripTagsGo false buf cs
  | true, buf, [] => buf.reverse
  | true, buf, c :: cs =>
    if c = '>' then stripTagsGo false [] cs
    else if c = '\n' then buf.reverse ++ c :: stripTagsGo false [] cs
    else stripTagsGo true (c :: buf) cs

/-- Python `s.strip()`: drop leading and trailing whitespace. -/
def trimChars (cs : List Char) : List Char :=
  ((cs.dropWhile Char.isWhitespace).reverse.dropWhile Char.isWhitespace).reverse

/-- `clean_html`: non-string input yields the empty string, a string has its
markup spans removed and is stripped of surrounding whitespace. -/
def clean_html : Cell → String
  | Cell.str s => (trimChars (stripTagsGo false [] s.toList)).asString
  | _ => ""

/-- A row after `preprocess_combined_data`: the price is parsed (`none`
models a `NaN` that slipped through), the availability flag is numeric, the
description is stripped text and the six sentinel-filled text columns are
plain strings. -/
structure PreRow where
  product_url : Option String
  title : String
  vendor : String
  price : Option ℚ
  is_available_numeric : ℕ
  description_text : String
  product_category : String
  source_store_name : String
  source_platform : Option String
  product_tags : String
  sku : String
deriving DecidableEq

/-- The cleaned form of one combined row whose price parsed to `p`: derive
`is_available_numeric` and `description_text` and fill the six text columns
with the `'N/A'` sentinel. -/
def preRowOf (r : CombinedRow) (p : ℚ) : PreRow :=
  { product_url := r.product_url
    title := r.title.getD "N/A"
    vendor := r.vendor.getD "N/A"
    price := some p
    is_available_numeric := is_available_numeric_of r.availability
    description_text := clean_html r.description
    product_category := r.product_category.getD "N/A"
    source_store_name := r.source_store_name.getD "N/A"
    source_platform := r.source_platform
    product_tags := r.product_tags.getD "N/A"
    sku := r.sku.getD "N/A" }

/-- The row-level work of `preprocess_combined_data`: parse the price and
drop the row when it does not parse. -/
def preprocessRow (r : CombinedRow) : Option PreRow :=
  match clean_and_convert_price r.price with
  | none => none
  | some p => some (preRowOf r p)

/-- `preprocess_combined_data`: clean every row and drop the rows whose
price failed to parse (`dropna(subset=['price'])`). -/
def preprocess_combined_data (df : List CombinedRow) : List PreRow :=
  df.filterMap preprocessRow

/-- A scored row: the preprocessed row plus the three derived scores. -/
structure ScoredRow extends PreRow where
  availability_score : ℚ
  price_score : ℚ
  final_score : ℚ
deriving DecidableEq

/-- `df['price'].min()` over the non-null prices (pandas ignores `NaN`). -/
def listMin : List ℚ → ℚ
  | [] => 0
  | x :: xs => xs.foldl min x

/-- `df['price'].max()` over the non-null prices (pandas ignores `NaN`). -/
def listMax : List ℚ → ℚ
  | [] => 0
  | x :: xs => xs.foldl max x

/-- The non-null prices of the batch, in row order. -/
def pricesOf (df : List PreRow) : List ℚ :=
  df.filterMap PreRow.price

/-- The `price_score` column before the final `fillna(0)`; `none` models a
`NaN` entry.  The column starts at `0.0`; with more than one distinct
non-null price it is min-max normalized and inverted (a `NaN` price stays
`NaN`); with a non-empty batch that has at least one non-null price but at
most one distinct value, every row gets `0.5`. -/
def priceScoreRaw (df : List PreRow) (p : Option ℚ) : Option ℚ :=
  if 1 < (pricesOf df).dedup.length ∧ pricesOf df ≠ [] then
    if listMax (pricesOf df) = listMin (pricesOf df) then some (1/2)
    else
      match p with
      | none => none
      | some q =>
        some ((listMax (pricesOf df) - q) / (listMax (pricesOf df) - listMin (pricesOf df)))
  else if df ≠ [] ∧ pricesOf df ≠ [] then some (1/2)
  else some 0

/-- `calculate_attractiveness_score`: `availability_score` copies the
numeric availability flag, `price_score` is the raw column with `NaN`
coerced to `0` (`fillna(0)`), and `final_score` is the weighted sum. -/
def calculate_attractiveness_score (df : List PreRow) (w_availability w_price : ℚ) :
    List ScoredRow :=
  df.map (fun r =>
    { toPreRow := r
      availability_score := (r.is_available_numeric : ℚ)
      price_score := (priceScoreRaw df r.price).getD 0
      final_score :=
        (r.is_available_numeric : ℚ) * w_availability +
          (priceScoreRaw df r.price).getD 0 * w_price })

/-- The comparison used by the rank derivers: descending `final_score`. -/
def finalScoreDesc (a b : ScoredRow) : Bool :=
  decide (b.final_score ≤ a.final_score)

/-- `display_top_k_products`: `df.sort_values(by='final_score',
ascending=False).head(k)`.  The sort is modelled as a deterministic
descending sort; note that pandas' default `kind='quicksort'` leaves the
relative order of rows with equal `final_score` unspecified, so only
tie-order-independent facts (length, membership, descending order) are
derived from this definition. -/
def display_top_k_products (df : List ScoredRow) (k : ℕ) : List ScoredRow :=
  (df.mergeSort finalScoreDesc).take k

/-- The distinct `source_store_name` keys in `groupby` order (ascending). -/
def storeKeys (df : List ScoredRow) : List String :=
  ((df.map (fun r => r.source_store_name)).dedup).mergeSort (fun a b => decide (a ≤ b))

/-- The rows of one `groupby('source_store_name')` group, in row order. -/
def storeGroup (df : List ScoredRow) (st : String) : List ScoredRow :=
  df.filter (fun r => decide (r.source_store_name = st))

/-- `['final_score'].nlargest(n)` on one group: the first `n` rows of the
stable descending sort (`keep='first'` resolves ties by position). -/
def topNOfGroup (df : List ScoredRow) (n : ℕ) (st : String) : List ScoredRow :=
  ((storeGroup df st).mergeSort finalScoreDesc).take n

/-- `display_flagship_products_per_store`: for every store, in key order,
the group's top `n` rows by `final_score`. -/
def display_flagship_products_per_store (df : List ScoredRow) (n : ℕ) :
    List ScoredRow :=
  (storeKeys df).flatMap (fun st => topNOfGroup df n st)

/-- A row of the `scored_products` destination table (without the timestamp
column); the text columns are `fillna('N/A')`-ed before the write. -/
structure ScoredDBRow where
  product_url : String
  title : String
  source_store_name : String
  price : Option ℚ
  is_available_numeric : ℕ
  description_text : String
  product_category : String
  product_tags : String
  sku : String
  source_platform : String
  availability_score : ℚ
  price_score : ℚ
  final_score : ℚ
deriving DecidableEq

/-- The tuple `save_scored_products_to_db` builds from one scored row. -/
def scoredDBRowOf (r : ScoredRow) : ScoredDBRow :=
  { product_url := r.product_url.getD "N/A"
    title := r.title
    source_store_name := r.source_store_name
    price := r.price
    is_available_numeric := r.is_available_numeric
    description_text := r.description_text
    product_category := r.product_category
    product_tags := r.product_tags
    sku := r.sku
    source_platform := r.source_platform.getD "N/A"
    availability_score := r.availability_score
    price_score := r.price_score
    final_score := r.final_score }

/-- A row of the `top_k_products_overall` destination table (without the
timestamp column). -/
structure TopKOut where
  rank_overall : ℕ
  product_url : Option String
  title : String
  source_store_name : String
  final_score : ℚ
  source_platform : Option String
deriving DecidableEq

/-- The tuples `save_top_k_to_db` inserts: `rank_overall` is the 1-based
position in the top-k frame. -/
def save_top_k_rows (top_k_df : List ScoredRow) : List TopKOut :=
  (List.enumFrom 1 top_k_df).map (fun p =>
    { rank_overall := p.1
      product_url := p.2.product_url
      title := p.2.title
      source_store_name := p.2.source_store_name
      final_score := p.2.final_score
      source_platform := p.2.source_platform })

/-- A row of the `flagship_products_by_store` destination table (without the
timestamp column). -/
structure FlagshipOut where
  source_store_name : String
  store_rank : ℕ
  product_url : Option String
  title : String
  final_score : ℚ
  source_platform : Option String
deriving DecidableEq

/-- The distinct store keys of the flagship frame, in `groupby` order. -/
def flagshipKeys (flagship_df : List ScoredRow) : List String :=
  ((flagship_df.map (fun r => r.source_store_name)).dedup).mergeSort
    (fun a b => decide (a ≤ b))

/-- The tuples `save_flagship_to_db` inserts: the flagship frame is grouped
again by store and each group gets `store_rank = range(1, len + 1)` in row
order. -/
def save_flagship_rows (flagship_df : List ScoredRow) : List FlagshipOut :=
  (flagshipKeys flagship_df).flatMap (fun st =>
    (List.enumFrom 1
        (flagship_df.filter (fun r => decide (r.source_store_name = st)))).map
      (fun p =>
        { source_store_name := p.2.source_store_name
          store_rank := p.1
          product_url := p.2.product_url
          title := p.2.title
          final_score := p.2.final_score
          source_platform := p.2.source_platform }))

/-- A row of the `store_rankings` destination table (without the timestamp
column). -/
structure StoreRankOut where
  source_store_name : String
  avg_product_score : Option ℚ
  max_product_score : Option ℚ
  source_platform : String
deriving DecidableEq

/-- The four destination tables of `product_analysis_db`, with
`scored_products` keyed by its unique `product_url`. -/
structure DBState where
  scored_products : String → Option ScoredDBRow
  top_k_products_overall : List TopKOut
  flagship_products_by_store : List FlagshipOut
  store_rankings : List StoreRankOut

/-- `INSERT ... ON DUPLICATE KEY UPDATE` for one row of `scored_products`:
a matching `product_url` is overwritten, a new one is inserted. -/
def upsertScored (t : String → Option ScoredDBRow) (r : ScoredDBRow) :
    String → Option ScoredDBRow :=
  fun u => if u = r.product_url then some r else t u

/-- `save_scored_products_to_db`: upsert every row of the scored frame into
the table (the chunking only bounds transaction size and does not change the
final contents when no chunk fails). -/
def save_scored_products_to_db (t : String → Option ScoredDBRow)
    (rows : List ScoredDBRow) : String → Option ScoredDBRow :=
  rows.foldl upsertScored t

/-- `save_top_k_to_db`: an empty frame returns early, otherwise the table is
deleted and the new rows inserted. -/
def save_top_k_to_db (cur rows : List TopKOut) : List TopKOut :=
  if rows = [] then cur else rows

/-- `save_flagship_to_db`: an empty frame returns early, otherwise the table
is deleted and the new rows inserted. -/
def save_flagship_to_db (cur rows : List FlagshipOut) : List FlagshipOut :=
  if rows = [] then cur else rows

/-- `save_store_rankings_to_db`: an empty input returns early, otherwise the
table is deleted and the new rows inserted. -/
def save_store_rankings_to_db (cur rows : List StoreRankOut) : List StoreRankOut :=
  if rows = [] then cur else rows

/-- One run of the persistence stage over the four destination tables. -/
def runPersistence (st : DBState) (scored : List ScoredDBRow)
    (topk : List TopKOut) (flags : List FlagshipOut)
    (ranks : List StoreRankOut) : DBState :=
  { scored_products := save_scored_products_to_db st.scored_products scored
    top_k_products_overall := save_top_k_to_db st.top_k_products_overall topk
    flagship_products_by_store :=
      save_flagship_to_db st.flagship_products_by_store flags
    store_rankings := save_store_rankings_to_db st.store_rankings ranks }

/-- A concrete preprocessed Shopify-style row (parsed price 10, available). -/
def wrowA : PreRow :=
  { product_url := some "https://a.example/p1"
    title := "Alpha"
    vendor := "VendorA"
    price := some 10
    is_available_numeric := 1
    description_text := ""
    product_category := "Pedals"
    source_store_name := "StoreA"
    source_platform := some "Shopify"
    product_tags := "N/A"
    sku := "N/A" }

/-- A concrete preprocessed row (parsed price 30, not available). -/
def wrowB : PreRow :=
  { product_url := some "https://b.example/p2"
    title := "Beta"
    vendor := "VendorB"
    price := some 30
    is_available_numeric := 0
    description_text := ""
    product_category := "Pedals"
    source_store_name := "StoreB"
    source_platform := some "WooCommerce"
    product_tags := "N/A"
    sku := "N/A" }

/-- A two-row batch with two distinct prices. -/
def dfW : List PreRow := [wrowA, wrowB]

/-- The scored form of `wrowA` inside the batch `dfW` with the default
weights: cheapest price, available, so every score is maximal. -/
def scWA : ScoredRow :=
  { toPreRow := wrowA
    availability_score := 1
    price_score := 1
    final_score := 1 }

/-- The scored form of `wrowA` inside the singleton batch `[wrowA]` with the
default weights: a single row forces `price_score = 0.5`. -/
def scW2 : ScoredRow :=
  { toPreRow := wrowA
    availability_score := 1
    price_score := 1/2
    final_score := 4/5 }

/-- A concrete Shopify-shaped combined row with key `"u1"`. -/
def crowShop : CombinedRow :=
  { product_url := some "u1"
    title := some "Alpha"
    vendor := some "VendorA"
    price := Cell.str "$10.00"
    availability := Cell.str "Available"
    description := Cell.str "<p>d</p>"
    product_category := some "Pedals"
    source_store_name := some "StoreA"
    source_platform := some "Shopify"
    product_tags := none
    sku := none }

/-- A concrete WooCommerce-shaped combined row with the same key `"u1"`. -/
def crowWoo : CombinedRow :=
  { product_url := some "u1"
    title := some "Alpha Woo"
    vendor := some "Barefoot Buttons"
    price := Cell.str "12.00"
    availability := Cell.str "Available"
    description := Cell.null
    product_category := some "buttons"
    source_store_name := some "Barefoot Buttons"
    source_platform := some "WooCommerce"
    product_tags := some "v1"
    sku := some "BB-1" }

/-- A WooCommerce-shaped combined row: that source never scrapes a
description, so the fetch stage injects `description = None`. -/
def wooRowNoDesc : CombinedRow :=
  { product_url := some "https://barefootbuttons.com/p1"
    title := some "Version 1"
    vendor := some "Barefoot Buttons"
    price := Cell.str "9.95"
    availability := Cell.str "Available"
    description := Cell.null
    product_category := some "buttons"
    source_store_name := some "Barefoot Buttons"
    source_platform := some "WooCommerce"
    product_tags := some "v1"
    sku := some "BB-1" }

/-- The preprocessed form of `wooRowNoDesc`. -/
def preRowW : PreRow :=
  { product_url := some "https://barefootbuttons.com/p1"
    title := "Version 1"
    vendor := "Barefoot Buttons"
    price := some (199/20)
    is_available_numeric := 1
    description_text := ""
    product_category := "buttons"
    source_store_name := "Barefoot Buttons"
    source_platform := some "WooCommerce"
    product_tags := "v1"
    sku := "BB-1" }

/-! ## Helper lemmas -/

theorem foldl_min_le_init (xs : List ℚ) (a : ℚ) : xs.foldl min a ≤ a := by
  induction xs generalizing a with
  | nil => exact le_refl a
  | cons y ys ih => exact le_trans (ih (min a y)) (min_le_left a y)

theorem foldl_min_le_mem (x : ℚ) :
    ∀ xs : List ℚ, x ∈ xs → ∀ a : ℚ, xs.foldl min a ≤ x := by
  intro xs
  induction xs with
  | nil => intro h; cases h
  | cons y ys ih =>
    intro hx a
    rcases List.mem_cons.mp hx with rfl | h
    · exact le_trans (foldl_min_le_init ys (min a x)) (min_le_right a x)
    · exact ih h (min a y)

theorem listMin_le_mem {l : List ℚ} {x : ℚ} (hx : x ∈ l) : listMin l ≤ x := by
  cases l with
  | nil => cases hx
  | cons y ys =>
    show ys.foldl min y ≤ x
    rcases List.mem_cons.mp hx with rfl | h
    · exact foldl_min_le_init ys x
    · exact foldl_min_le_mem x ys h y

theorem init_le_foldl_max (xs : List ℚ) (a : ℚ) : a ≤ xs.foldl max a := by
  induction xs generalizing a with
  | nil => exact le_refl a
  | cons y ys ih => exact le_trans (le_max_left a y) (ih (max a y))

theorem mem_le_foldl_max (x : ℚ) :
    ∀ xs : List ℚ, x ∈ xs → ∀ a : ℚ, x ≤ xs.foldl max a := by
  intro xs
  induction xs with
  | nil => intro h; cases h
  | cons y ys ih =>
    intro hx a
    rcases List.mem_cons.mp hx with rfl | h
    · exact le_trans (le_max_right a x) (init_le_foldl_max ys (max a x))
    · exact ih h (max a y)

theorem mem_le_listMax {l : List ℚ} {x : ℚ} (hx : x ∈ l) : x ≤ listMax l := by
  cases l with
  | nil => cases hx
  | cons y ys =>
    show x ≤ ys.foldl max y
    rcases List.mem_cons.mp hx with rfl | h
    · exact init_le_foldl_max ys x
    · exact mem_le_foldl_max x ys h y

theorem dedup_length_le_one_of_all_eq {l : List ℚ}
    (h : ∀ x ∈ l, ∀ y ∈ l, x = y) : l.dedup.length ≤ 1 := by
  rcases hd : l.dedup with _ | ⟨a, _ | ⟨b, t2⟩⟩
  · simp
  · simp
  · exfalso
    have hnd := l.nodup_dedup
    rw [hd] at hnd
    have hab : a ≠ b := by
      have := List.nodup_cons.mp hnd
      exact fun he => this.1 (he ▸ List.mem_cons_self b t2)
    have ha : a ∈ l := List.mem_dedup.mp (hd ▸ List.mem_cons_self a (b :: t2))
    have hb : b ∈ l :=
      List.mem_dedup.mp (hd ▸ List.mem_cons_of_mem a (List.mem_cons_self b t2))
    exact hab (h a ha b hb)

theorem one_lt_dedup_length_of_ne {l : List ℚ} {x y : ℚ}
    (hx : x ∈ l) (hy : y ∈ l) (hne : x ≠ y) : 1 < l.dedup.length := by
  have hx' : x ∈ l.dedup := List.mem_dedup.mpr hx
  have hy' : y ∈ l.dedup := List.mem_dedup.mpr hy
  rcases hd : l.dedup with _ | ⟨a, _ | ⟨b, t2⟩⟩
  · rw [hd] at hx'; cases hx'
  · rw [hd] at hx' hy'
    simp only [List.mem_singleton] at hx' hy'
    exact absurd (hx'.trans hy'.symm) hne
  · simp only [List.length_cons]
    omega

theorem mem_pricesOf {df : List PreRow} {r : PreRow} {q : ℚ}
    (hr : r ∈ df) (hq : r.price = some q) : q ∈ pricesOf df :=
  List.mem_filterMap.mpr ⟨r, hr, hq⟩

theorem exists_of_mem_pricesOf {df : List PreRow} {q : ℚ} (h : q ∈ pricesOf df) :
    ∃ r ∈ df, r.price = some q := by
  obtain ⟨r, hr, he⟩ := List.mem_filterMap.mp h
  exact ⟨r, hr, he⟩

theorem parseCleanedPrice_nonneg (t : String) (q : ℚ)
    (h : parseCleanedPrice t = some q) : 0 ≤ q := by
  unfold parseCleanedPrice at h
  split at h
  · split at h
    · obtain rfl := Option.some_inj.mp h
      positivity
    · cases h
  · split at h
    · obtain rfl := Option.some_inj.mp h
      positivity
    · cases h
  · cases h

/-! ## Claim theorems -/

/-- Claim C9: the price cleaner strips the minus sign with every other
non-digit, non-dot character, so a price parsed from a string is
non-negative, and the textual negative price `"-5.00"` silently becomes the
positive value `5`. -/
theorem price_clean_nonneg :
    (∀ (s : String) (q : ℚ),
      clean_and_convert_price (Cell.str s) = some q → 0 ≤ q) ∧
    clean_and_convert_price (Cell.str "-5.00") = some 5 := by
  constructor
  · intro s q h
    simp only [clean_and_convert_price] at h
    split at h
    · cases h
    · exact parseCleanedPrice_nonneg _ _ h
  · with_unfolding_all decide

/-- Claim C10: the availability flag is `1` exactly when the raw value is a
string whose lowercasing is `"available"`; every other value (null, number,
any other phrasing) yields `0`. -/
theorem availability_flag_spec (x : Cell) :
    (is_available_numeric_of x = 1 ↔
      ∃ s, x = Cell.str s ∧ lowerStr s = "available") ∧
    (is_available_numeric_of x = 0 ∨ is_available_numeric_of x = 1) := by
  constructor
  · constructor
    · intro h
      cases x with
      | str s =>
        refine ⟨s, rfl, ?_⟩
        by_contra hc
        simp [is_available_numeric_of, hc] at h
      | null => simp [is_available_numeric_of] at h
      | num q => simp [is_available_numeric_of] at h
    · rintro ⟨s, rfl, hs⟩
      simp [is_available_numeric_of, hs]
  · cases x with
    | str s =>
      by_cases hs : lowerStr s = "available" <;> simp [is_available_numeric_of, hs]
    | null => left; rfl
    | num q => left; rfl

/-- Claim C1: for a non-empty batch whose prices all parsed, every price
score lies in `[0, 1]`; an all-equal-price or single-row batch forces `0.5`
everywhere; otherwise the score is `(max - price) / (max - min)` over the
batch's prices. -/
theorem price_score_spec (df : List PreRow) (w_availability w_price : ℚ)
    (hne : df ≠ []) (hall : ∀ r ∈ df, r.price.isSome) :
    ∀ s ∈ calculate_attractiveness_score df w_availability w_price,
      (0 ≤ s.price_score ∧ s.price_score ≤ 1) ∧
      (((∀ r ∈ df, ∀ r' ∈ df, r.price = r'.price) ∨ df.length = 1) →
        s.price_score = 1/2) ∧
      ((∃ r ∈ df, ∃ r' ∈ df, r.price ≠ r'.price) →
        s.price_score =
          (listMax (pricesOf df) - s.price.getD 0) /
            (listMax (pricesOf df) - listMin (pricesOf df))) := by
  intro s hs
  obtain ⟨r, hr, rfl⟩ := List.mem_map.mp hs
  obtain ⟨q, hq⟩ := Option.isSome_iff_exists.mp (hall r hr)
  have hqmem : q ∈ pricesOf df := mem_pricesOf hr hq
  have hpne : pricesOf df ≠ [] := List.ne_nil_of_mem hqmem
  dsimp only
  by_cases hd : 1 < (pricesOf df).dedup.length
  · have hmaxmin : ¬ listMax (pricesOf df) = listMin (pricesOf df) := by
      intro he
      have hall_eq : ∀ x ∈ pricesOf df, ∀ y ∈ pricesOf df, x = y := by
        intro x hx y hy
        have h1 := mem_le_listMax hx
        have h2 := listMin_le_mem hy
        have h3 := mem_le_listMax hy
        have h4 := listMin_le_mem hx
        rw [he] at h1 h3
        exact le_antisymm (le_trans h1 h2) (le_trans h3 h4)
      have := dedup_length_le_one_of_all_eq hall_eq
      omega
    have hraw : priceScoreRaw df r.price =
        some ((listMax (pricesOf df) - q) /
          (listMax (pricesOf df) - listMin (pricesOf df))) := by
      unfold priceScoreRaw
      rw [hq, if_pos ⟨hd, hpne⟩, if_neg hmaxmin]
    rw [hraw, Option.getD_some]
    have hqmax : q ≤ listMax (pricesOf df) := mem_le_listMax hqmem
    have hqmin : listMin (pricesOf df) ≤ q := listMin_le_mem hqmem
    have hlt : listMin (pricesOf df) < listMax (pricesOf df) :=
      lt_of_le_of_ne (le_trans hqmin hqmax) (fun he => hmaxmin he.symm)
    refine ⟨⟨div_nonneg (by linarith) (by linarith), ?_⟩, ?_, ?_⟩
    · rw [div_le_one (by linarith)]
      linarith
    · intro hcase
      exfalso
      rcases hcase with hall_eq | hlen
      · have hpeq : ∀ x ∈ pricesOf df, ∀ y ∈ pricesOf df, x = y := by
          intro x hx y hy
          obtain ⟨rx, hrx, hex⟩ := exists_of_mem_pricesOf hx
          obtain ⟨ry, hry, hey⟩ := exists_of_mem_pricesOf hy
          have h := hall_eq rx hrx ry hry
          rw [hex, hey] at h
          exact Option.some_inj.mp h
        have := dedup_length_le_one_of_all_eq hpeq
        omega
      · have h1 : (pricesOf df).length ≤ df.length :=
          List.length_filterMap_le _ _
        have h2 : (pricesOf df).dedup.length ≤ (pricesOf df).length :=
          (List.dedup_sublist _).length_le
        omega
    · intro _
      rw [hq, Option.getD_some]
  · have hcond : ¬(1 < (pricesOf df).dedup.length ∧ pricesOf df ≠ []) :=
      fun hc => hd hc.1
    have hraw : priceScoreRaw df r.price = some (1/2) := by
      unfold priceScoreRaw
      rw [if_neg hcond, if_pos ⟨hne, hpne⟩]
    rw [hraw, Option.getD_some]
    refine ⟨⟨by norm_num, by norm_num⟩, fun _ => rfl, ?_⟩
    rintro ⟨r1, hr1, r2, hr2, hne12⟩
    exfalso
    obtain ⟨q1, hq1⟩ := Option.isSome_iff_exists.mp (hall r1 hr1)
    obtain ⟨q2, hq2⟩ := Option.isSome_iff_exists.mp (hall r2 hr2)
    have hq12 : q1 ≠ q2 := fun he => hne12 (by rw [hq1, hq2, he])
    exact hd (one_lt_dedup_length_of_ne (mem_pricesOf hr1 hq1)
      (mem_pricesOf hr2 hq2) hq12)

/-- Claim C1 witness: the two-price batch `dfW` at the default weights,
evaluated at the scored row of `wrowA`. -/
theorem price_score_spec_witness :
    (0 ≤ scWA.price_score ∧ scWA.price_score ≤ 1) ∧
    (((∀ r ∈ dfW, ∀ r' ∈ dfW, r.price = r'.price) ∨ dfW.length = 1) →
      scWA.price_score = 1/2) ∧
    ((∃ r ∈ dfW, ∃ r' ∈ dfW, r.price ≠ r'.price) →
      scWA.price_score =
        (listMax (pricesOf dfW) - scWA.price.getD 0) /
          (listMax (pricesOf dfW) - listMin (pricesOf dfW))) :=
  price_score_spec dfW WEIGHT_AVAILABILITY WEIGHT_PRICE (by decide)
    (by decide) scWA (by with_unfolding_all decide)

/-- Claim C2: every scored row's final score is the weighted sum of its
availability score and its price score, the weights used as given; the
stored price score is the raw column value with `NaN` coerced to `0`. -/
theorem final_score_spec (df : List PreRow) (w_availability w_price : ℚ)
    (s : ScoredRow)
    (hs : s ∈ calculate_attractiveness_score df w_availability w_price) :
    s.final_score =
      w_availability * s.availability_score + w_price * s.price_score ∧
    s.price_score = (priceScoreRaw df s.price).getD 0 ∧
    s.availability_score = (s.is_available_numeric : ℚ) := by
  obtain ⟨r, hr, rfl⟩ := List.mem_map.mp hs
  refine ⟨by dsimp only; ring, rfl, rfl⟩

/-- Claim C2 witness: the singleton batch `[wrowA]` at the default weights,
evaluated at its scored row `scW2`. -/
theorem final_score_spec_witness :
    scW2.final_score =
      WEIGHT_AVAILABILITY * scW2.availability_score +
        WEIGHT_PRICE * scW2.price_score ∧
    scW2.price_score = (priceScoreRaw [wrowA] scW2.price).getD 0 ∧
    scW2.availability_score = (scW2.is_available_numeric : ℚ) :=
  final_score_spec [wrowA] WEIGHT_AVAILABILITY WEIGHT_PRICE scW2
    (by with_unfolding_all decide)

theorem finalScoreDesc_trans : ∀ a b c : ScoredRow,
    finalScoreDesc a b → finalScoreDesc b c → finalScoreDesc a c := by
  intro a b c hab hbc
  simp only [finalScoreDesc, decide_eq_true_eq] at *
  exact le_trans hbc hab

theorem finalScoreDesc_total : ∀ a b : ScoredRow,
    finalScoreDesc a b || finalScoreDesc b a := by
  intro a b
  simp only [finalScoreDesc, Bool.or_eq_true, decide_eq_true_eq]
  exact le_total b.final_score a.final_score

theorem save_scored_not_mem (t : String → Option ScoredDBRow) :
    ∀ (rows : List ScoredDBRow) (u : String),
      (∀ r ∈ rows, r.product_url ≠ u) →
      save_scored_products_to_db t rows u = t u := by
  intro rows
  induction rows generalizing t with
  | nil => intro u h; rfl
  | cons r rs ih =>
    intro u h
    show save_scored_products_to_db (upsertScored t r) rs u = t u
    rw [ih (upsertScored t r) u (fun r' hr' => h r' (List.mem_cons_of_mem r hr'))]
    have hne : u ≠ r.product_url := fun he => (h r (List.mem_cons_self r rs)) he.symm
    simp [upsertScored, hne]

theorem save_scored_mem :
    ∀ (rows : List ScoredDBRow) (u : String)
      (t t' : String → Option ScoredDBRow),
      (∃ r ∈ rows, r.product_url = u) →
      save_scored_products_to_db t rows u = save_scored_products_to_db t' rows u := by
  intro rows
  induction rows with
  | nil =>
    intro u t t' h
    obtain ⟨r, hr, -⟩ := h
    cases hr
  | cons r rs ih =>
    intro u t t' h
    show save_scored_products_to_db (upsertScored t r) rs u =
      save_scored_products_to_db (upsertScored t' r) rs u
    by_cases hrs : ∃ r' ∈ rs, r'.product_url = u
    · exact ih u _ _ hrs
    · obtain ⟨r0, hr0, hu⟩ := h
      have hr0r : r0 = r := by
        rcases List.mem_cons.mp hr0 with h1 | h1
        · exact h1
        · exact absurd ⟨r0, h1, hu⟩ hrs
      subst hr0r
      have hall : ∀ r' ∈ rs, r'.product_url ≠ u :=
        fun r' hr' he => hrs ⟨r', hr', he⟩
      rw [save_scored_not_mem _ rs u hall, save_scored_not_mem _ rs u hall]
      simp [upsertScored, hu.symm]

/-- Claim C8: with each destination table as explicit state, running the
persistence stage twice with the same scored rows and derived views yields
the same final tables as running it once: the `scored_products` upsert is
keyed by `product_url` and the view tables are replaced wholesale. -/
theorem persistence_idempotent (st : DBState) (scored : List ScoredDBRow)
    (topk : List TopKOut) (flags : List FlagshipOut)
    (ranks : List StoreRankOut) :
    runPersistence (runPersistence st scored topk flags ranks) scored topk
        flags ranks =
      runPersistence st scored topk flags ranks := by
  have hscored :
      save_scored_products_to_db
          (save_scored_products_to_db st.scored_products scored) scored =
        save_scored_products_to_db st.scored_products scored := by
    funext u
    by_cases hu : ∃ r ∈ scored, r.product_url = u
    · exact save_scored_mem scored u _ _ hu
    · have hall : ∀ r ∈ scored, r.product_url ≠ u :=
        fun r hr he => hu ⟨r, hr, he⟩
      rw [save_scored_not_mem _ scored u hall]
  have htopk :
      save_top_k_to_db (save_top_k_to_db st.top_k_products_overall topk) topk =
        save_top_k_to_db st.top_k_products_overall topk := by
    by_cases h : topk = [] <;> simp [save_top_k_to_db, h]
  have hflags :
      save_flagship_to_db
          (save_flagship_to_db st.flagship_products_by_store flags) flags =
        save_flagship_to_db st.flagship_products_by_store flags := by
    by_cases h : flags = [] <;> simp [save_flagship_to_db, h]
  have hranks :
      save_store_rankings_to_db
          (save_store_rankings_to_db st.store_rankings ranks) ranks =
        save_store_rankings_to_db st.store_rankings ranks := by
    by_cases h : ranks = [] <;> simp [save_store_rankings_to_db, h]
  unfold runPersistence
  dsimp only
  rw [hscored, htopk, hflags, hranks]

theorem drop_dup_filter_mem (v : Option String) :
    ∀ (l : List CombinedRow) (seen : List (Option String)), v ∈ seen →
      (drop_duplicates_by_url seen l).filter
        (fun r => decide (r.product_url = v)) = [] := by
  intro l
  induction l with
  | nil => intro seen hv; rfl
  | cons r rs ih =>
    intro seen hv
    unfold drop_duplicates_by_url
    by_cases hr : r.product_url ∈ seen
    · rw [if_pos hr]
      exact ih seen hv
    · rw [if_neg hr]
      have hrv : ¬ r.product_url = v := fun he => hr (he ▸ hv)
      rw [List.filter_cons, if_neg (by simpa using hrv)]
      exact ih (r.product_url :: seen) (List.mem_cons_of_mem _ hv)

theorem drop_dup_filter_not_mem (v : Option String) :
    ∀ (l : List CombinedRow) (seen : List (Option String)), v ∉ seen →
      (drop_duplicates_by_url seen l).filter
          (fun r => decide (r.product_url = v)) =
        (l.find? (fun r => decide (r.product_url = v))).toList := by
  intro l
  induction l with
  | nil => intro seen hv; rfl
  | cons r rs ih =>
    intro seen hv
    unfold drop_duplicates_by_url
    by_cases hr : r.product_url ∈ seen
    · have hrv : ¬ r.product_url = v := fun he => hv (he ▸ hr)
      rw [if_pos hr, List.find?_cons_of_neg _ (by simpa using hrv)]
      exact ih seen hv
    · rw [if_neg hr]
      by_cases hrv : r.product_url = v
      · rw [List.filter_cons, if_pos (by simpa using hrv),
          List.find?_cons_of_pos _ (by simpa using hrv),
          drop_dup_filter_mem v rs (r.product_url :: seen)
            (by rw [hrv]; exact List.mem_cons_self _ _)]
        rfl
      · rw [List.filter_cons, if_neg (by simpa using hrv),
          List.find?_cons_of_neg _ (by simpa using hrv)]
        refine ih (r.product_url :: seen) ?_
        intro hmem
        rcases List.mem_cons.mp hmem with h1 | h1
        · exact hrv h1.symm
        · exact hv h1

theorem find?_filter_of_imp {p q : CombinedRow → Bool}
    (himp : ∀ r, p r = true → q r = true) :
    ∀ l : List CombinedRow, (l.filter q).find? p = l.find? p := by
  intro l
  induction l with
  | nil => rfl
  | cons r rs ih =>
    rw [List.filter_cons]
    by_cases hq : q r = true
    · rw [if_pos hq]
      by_cases hp : p r = true
      · rw [List.find?_cons_of_pos _ hp, List.find?_cons_of_pos _ hp]
      · rw [List.find?_cons_of_neg _ hp, List.find?_cons_of_neg _ hp]
        exact ih
    · rw [if_neg hq]
      have hp : ¬ p r = true := fun hpr => hq (himp r hpr)
      rw [List.find?_cons_of_neg _ hp]
      exact ih

theorem find?_append_of_isSome {p : CombinedRow → Bool}
    (l₂ : List CombinedRow) :
    ∀ l₁ : List CombinedRow, (l₁.find? p).isSome →
      (l₁ ++ l₂).find? p = l₁.find? p := by
  intro l₁
  induction l₁ with
  | nil => intro h; simp at h
  | cons r rs ih =>
    intro h
    by_cases hp : p r = true
    · rw [List.cons_append, List.find?_cons_of_pos _ hp,
        List.find?_cons_of_pos _ hp]
    · rw [List.find?_cons_of_neg _ hp] at h
      rw [List.cons_append, List.find?_cons_of_neg _ hp,
        List.find?_cons_of_neg _ hp]
      exact ih h

/-- Claim C4: after the merge, a `product_url` present in both sources
survives as exactly the first-read (Shopify) record, and every distinct
`product_url` occurs at most once in the merged frame. -/
theorem merge_dedup_spec (df_shopify df_woocommerce : List CombinedRow)
    (u : String)
    (hs : ∃ r ∈ df_shopify, r.product_url = some u)
    (hw : ∃ r ∈ df_woocommerce, r.product_url = some u) :
    (combine_sources df_shopify df_woocommerce).filter
        (fun r => decide (r.product_url = some u)) =
      (df_shopify.find? (fun r => decide (r.product_url = some u))).toList ∧
    ∀ v : Option String,
      ((combine_sources df_shopify df_woocommerce).filter
          (fun r => decide (r.product_url = v))).length ≤ 1 := by
  have himp : ∀ r : CombinedRow,
      decide (r.product_url = some u) = true → (!rowAllNa r) = true := by
    intro r hp
    simp only [decide_eq_true_eq] at hp
    have hnone : r.product_url.isNone = false := by rw [hp]; rfl
    simp [rowAllNa, hnone]
  constructor
  · unfold combine_sources
    rw [drop_dup_filter_not_mem _ _ [] (by simp),
      find?_filter_of_imp himp]
    obtain ⟨r, hr, hu⟩ := hs
    have hsome :
        (df_shopify.find? (fun r => decide (r.product_url = some u))).isSome :=
      List.find?_isSome.mpr ⟨r, hr, by simpa using hu⟩
    rw [find?_append_of_isSome _ _ hsome]
  · intro v
    unfold combine_sources
    rw [drop_dup_filter_not_mem _ _ [] (by simp)]
    cases ((df_shopify ++ df_woocommerce).filter
        (fun r => !rowAllNa r)).find? (fun r => decide (r.product_url = v)) with
    | none => simp
    | some r => simp

/-- Claim C4 witness: the key `"u1"` present in both concrete source lists
survives as the Shopify record only. -/
theorem merge_dedup_spec_witness :
    (combine_sources [crowShop] [crowWoo]).filter
        (fun r => decide (r.product_url = some "u1")) =
      (([crowShop] : List CombinedRow).find?
          (fun r => decide (r.product_url = some "u1"))).toList ∧
    ∀ v : Option String,
      ((combine_sources [crowShop] [crowWoo]).filter
          (fun r => decide (r.product_url = v))).length ≤ 1 :=
  merge_dedup_spec [crowShop] [crowWoo] "u1" (by decide) (by decide)

/-- Claim C6: preprocessing drops exactly the rows whose price fails to
parse: every surviving row carries a parsed price, parsed rows are retained
with their parsed decimal value, and no row without a parsed price reaches
scoring, the top-K view or the flagship view. -/
theorem price_drop_spec (df : List CombinedRow) (w_availability w_price : ℚ)
    (k n : ℕ) :
    (∀ r ∈ preprocess_combined_data df,
      ∃ r0 ∈ df, ∃ q, clean_and_convert_price r0.price = some q ∧
        r.price = some q) ∧
    (∀ r0 ∈ df, ∀ q : ℚ, clean_and_convert_price r0.price = some q →
      ∃ r ∈ preprocess_combined_data df,
        r.product_url = r0.product_url ∧ r.price = some q) ∧
    (∀ s ∈ calculate_attractiveness_score (preprocess_combined_data df)
        w_availability w_price, s.price.isSome) ∧
    (∀ s ∈ display_top_k_products
        (calculate_attractiveness_score (preprocess_combined_data df)
          w_availability w_price) k, s.price.isSome) ∧
    (∀ s ∈ display_flagship_products_per_store
        (calculate_attractiveness_score (preprocess_combined_data df)
          w_availability w_price) n, s.price.isSome) := by
  have h1 : ∀ r ∈ preprocess_combined_data df,
      ∃ r0 ∈ df, ∃ q, clean_and_convert_price r0.price = some q ∧
        r.price = some q := by
    intro r hr
    obtain ⟨r0, hr0, he⟩ := List.mem_filterMap.mp hr
    unfold preprocessRow at he
    cases hc : clean_and_convert_price r0.price with
    | none => rw [hc] at he; cases he
    | some p =>
      rw [hc] at he
      obtain rfl := Option.some_inj.mp he
      exact ⟨r0, hr0, p, hc, rfl⟩
  have h3 : ∀ s ∈ calculate_attractiveness_score (preprocess_combined_data df)
      w_availability w_price, s.price.isSome := by
    intro s hs
    obtain ⟨r, hr, rfl⟩ := List.mem_map.mp hs
    obtain ⟨r0, hr0, qq, hq, hrp⟩ := h1 r hr
    dsimp only
    rw [hrp]
    rfl
  refine ⟨h1, ?_, h3, ?_, ?_⟩
  · intro r0 hr0 q hq
    refine ⟨preRowOf r0 q,
      List.mem_filterMap.mpr ⟨r0, hr0, ?_⟩, rfl, rfl⟩
    unfold preprocessRow
    rw [hq]
  · intro s hs
    exact h3 s (List.mem_mergeSort.mp (List.mem_of_mem_take hs))
  · intro s hs
    obtain ⟨st, hst, hmem⟩ := List.mem_flatMap.mp hs
    exact h3 s (List.mem_filter.mp (List.mem_mergeSort.mp
      (List.mem_of_mem_take hmem))).1

/-- Claim C7 counterexample: a WooCommerce row whose structurally-absent
description is `None` is preprocessed to an empty `description_text`, not to
the `"N/A"` sentinel the claim states. -/
theorem fill_defaults_counterexample :
    (preprocess_combined_data [wooRowNoDesc]).map PreRow.description_text =
      [""] ∧ ("" : String) ≠ "N/A" := by
  constructor
  · with_unfolding_all decide
  · decide

/-- Claim C7 (amended): after preprocessing no unified field is a true
null: the six sentinel-filled text columns hold `"N/A"` whenever their
source value was missing, the missing description becomes the empty string
(not `"N/A"`), the availability flag is `0` or `1`, and the price is
present. -/
theorem fill_defaults_spec (df : List CombinedRow) (r : PreRow)
    (hr : r ∈ preprocess_combined_data df) :
    ∃ r0 ∈ df,
      r.title = r0.title.getD "N/A" ∧
      r.vendor = r0.vendor.getD "N/A" ∧
      r.product_category = r0.product_category.getD "N/A" ∧
      r.source_store_name = r0.source_store_name.getD "N/A" ∧
      r.product_tags = r0.product_tags.getD "N/A" ∧
      r.sku = r0.sku.getD "N/A" ∧
      r.description_text = clean_html r0.description ∧
      (r0.description = Cell.null → r.description_text = "") ∧
      (r.is_available_numeric = 0 ∨ r.is_available_numeric = 1) ∧
      r.price.isSome := by
  obtain ⟨r0, hr0, he⟩ := List.mem_filterMap.mp hr
  unfold preprocessRow at he
  cases hc : clean_and_convert_price r0.price with
  | none => rw [hc] at he; cases he
  | some p =>
    rw [hc] at he
    obtain rfl := Option.some_inj.mp he
    refine ⟨r0, hr0, rfl, rfl, rfl, rfl, rfl, rfl, rfl, ?_, ?_, rfl⟩
    · intro hnull
      show clean_html r0.description = ""
      rw [hnull]
      rfl
    · show is_available_numeric_of r0.availability = 0 ∨
        is_available_numeric_of r0.availability = 1
      cases r0.availability with
      | str s =>
        by_cases h : lowerStr s = "available" <;>
          simp [is_available_numeric_of, h]
      | null => left; rfl
      | num q => left; rfl

/-- Claim C7 witness: the amended property evaluated on the concrete
WooCommerce row without a description. -/
theorem fill_defaults_spec_witness :
    ∃ r0 ∈ [wooRowNoDesc],
      preRowW.title = r0.title.getD "N/A" ∧
      preRowW.vendor = r0.vendor.getD "N/A" ∧
      preRowW.product_category = r0.product_category.getD "N/A" ∧
      preRowW.source_store_name = r0.source_store_name.getD "N/A" ∧
      preRowW.product_tags = r0.product_tags.getD "N/A" ∧
      preRowW.sku = r0.sku.getD "N/A" ∧
      preRowW.description_text = clean_html r0.description ∧
      (r0.description = Cell.null → preRowW.description_text = "") ∧
      (preRowW.is_available_numeric = 0 ∨ preRowW.is_available_numeric = 1) ∧
      preRowW.price.isSome :=
  fill_defaults_spec [wooRowNoDesc] preRowW (by with_unfolding_all decide)

theorem mem_topNOfGroup_store {df : List ScoredRow} {n : ℕ} {st : String}
    {r : ScoredRow} (h : r ∈ topNOfGroup df n st) :
    r.source_store_name = st := by
  unfold topNOfGroup at h
  have h1 := List.mem_mergeSort.mp (List.mem_of_mem_take h)
  unfold storeGroup at h1
  have h2 := (List.mem_filter.mp h1).2
  simpa using h2

theorem filter_flatMap_of_key {β : Type} (name : β → String)
    (blk : String → List β) (hblk : ∀ k b, b ∈ blk k → name b = k)
    (st : String) :
    ∀ keys : List String, keys.Nodup →
      (keys.flatMap blk).filter (fun b => decide (name b = st)) =
        if st ∈ keys then blk st else [] := by
  intro keys
  induction keys with
  | nil => intro hnd; simp
  | cons k ks ih =>
    intro hnd
    obtain ⟨hk_not, hnd2⟩ := List.nodup_cons.mp hnd
    rw [List.flatMap_cons, List.filter_append, ih hnd2]
    by_cases hk : k = st
    · subst hk
      have hfil : (blk k).filter (fun b => decide (name b = k)) = blk k :=
        List.filter_eq_self.mpr (fun b hb => by simpa using hblk k b hb)
      rw [hfil, if_pos (List.mem_cons_self k ks), if_neg hk_not,
        List.append_nil]
    · have hfil : (blk k).filter (fun b => decide (name b = st)) = [] := by
        rw [List.filter_eq_nil_iff]
        intro b hb hpred
        exact hk ((hblk k b hb).symm.trans (by simpa using hpred))
      rw [hfil, List.nil_append]
      by_cases hks : st ∈ ks
      · rw [if_pos hks, if_pos (List.mem_cons_of_mem _ hks)]
      · have hnotin : st ∉ k :: ks := by
          intro hmemc
          rcases List.mem_cons.mp hmemc with h1 | h1
          · exact hk h1.symm
          · exact hks h1
        rw [if_neg hks, if_neg hnotin]

theorem mem_storeKeys {df : List ScoredRow} {st : String} :
    st ∈ storeKeys df ↔ ∃ r ∈ df, r.source_store_name = st := by
  unfold storeKeys
  rw [List.mem_mergeSort, List.mem_dedup]
  constructor
  · intro h
    obtain ⟨r, hr, he⟩ := List.mem_map.mp h
    exact ⟨r, hr, he⟩
  · rintro ⟨r, hr, he⟩
    exact List.mem_map.mpr ⟨r, hr, he⟩

theorem mem_flagshipKeys {l : List ScoredRow} {st : String} :
    st ∈ flagshipKeys l ↔ ∃ r ∈ l, r.source_store_name = st := by
  unfold flagshipKeys
  rw [List.mem_mergeSort, List.mem_dedup]
  constructor
  · intro h
    obtain ⟨r, hr, he⟩ := List.mem_map.mp h
    exact ⟨r, hr, he⟩
  · rintro ⟨r, hr, he⟩
    exact List.mem_map.mpr ⟨r, hr, he⟩

theorem storeKeys_nodup (df : List ScoredRow) : (storeKeys df).Nodup := by
  unfold storeKeys
  exact (List.mergeSort_perm _ _).symm.nodup (List.nodup_dedup _)

theorem flagshipKeys_nodup (l : List ScoredRow) : (flagshipKeys l).Nodup := by
  unfold flagshipKeys
  exact (List.mergeSort_perm _ _).symm.nodup (List.nodup_dedup _)

theorem snd_mem_of_mem_enumFrom {β : Type} :
    ∀ (l : List β) (i : ℕ) (p : ℕ × β), p ∈ List.enumFrom i l → p.2 ∈ l := by
  intro l
  induction l with
  | nil => intro i p h; cases h
  | cons a t ih =>
    intro i p h
    rcases List.mem_cons.mp h with rfl | h2
    · exact List.mem_cons_self _ _
    · exact List.mem_cons_of_mem _ (ih (i + 1) p h2)

theorem map_fst_enumFrom {β : Type} :
    ∀ (l : List β) (i : ℕ),
      (List.enumFrom i l).map Prod.fst = List.range' i l.length := by
  intro l
  induction l with
  | nil => intro i; rfl
  | cons a t ih =>
    intro i
    show i :: (List.enumFrom (i + 1) t).map Prod.fst =
      List.range' i (t.length + 1)
    rw [ih (i + 1)]
    rfl

/-- Claim C5: every store present in the scored set appears in the flagship
view with exactly `min n groupsize` rows; those rows are the store's top
`n` by final score, descending, with the rest of the group scoring no
higher; and the persisted per-store ranks form the gapless sequence
`1..count`. -/
theorem flagship_spec (df : List ScoredRow) (n : ℕ) (st : String)
    (hst : ∃ r ∈ df, r.source_store_name = st) :
    st ∈ storeKeys df ∧
    (topNOfGroup df n st).length = min n (storeGroup df st).length ∧
    (topNOfGroup df n st).Pairwise
      (fun a b => b.final_score ≤ a.final_score) ∧
    (∃ rest, List.Perm (topNOfGroup df n st ++ rest) (storeGroup df st) ∧
      ∀ y ∈ rest, ∀ x ∈ topNOfGroup df n st,
        y.final_score ≤ x.final_score) ∧
    (display_flagship_products_per_store df n).filter
        (fun r => decide (r.source_store_name = st)) = topNOfGroup df n st ∧
    ((save_flagship_rows (display_flagship_products_per_store df n)).filter
          (fun o => decide (o.source_store_name = st))).map
        FlagshipOut.store_rank =
      List.range' 1 (topNOfGroup df n st).length := by
  have hmem : st ∈ storeKeys df := mem_storeKeys.mpr hst
  have hfil : (display_flagship_products_per_store df n).filter
      (fun r => decide (r.source_store_name = st)) = topNOfGroup df n st := by
    unfold display_flagship_products_per_store
    rw [filter_flatMap_of_key (fun r : ScoredRow => r.source_store_name)
      (fun k => topNOfGroup df n k)
      (fun k b hb => mem_topNOfGroup_store hb) st (storeKeys df)
      (storeKeys_nodup df), if_pos hmem]
  refine ⟨hmem, ?_, ?_, ?_, hfil, ?_⟩
  · unfold topNOfGroup
    rw [List.length_take, List.length_mergeSort]
  · have hs := List.sorted_mergeSort finalScoreDesc_trans finalScoreDesc_total
      (storeGroup df st)
    have hp := hs.sublist (List.take_sublist n _)
    exact hp.imp (fun h => by simpa [finalScoreDesc] using h)
  · refine ⟨((storeGroup df st).mergeSort finalScoreDesc).drop n, ?_, ?_⟩
    · have happ : topNOfGroup df n st ++
          ((storeGroup df st).mergeSort finalScoreDesc).drop n =
          (storeGroup df st).mergeSort finalScoreDesc :=
        List.take_append_drop n _
      rw [happ]
      exact List.mergeSort_perm _ _
    · intro y hy x hx
      have hs := List.sorted_mergeSort finalScoreDesc_trans finalScoreDesc_total
        (storeGroup df st)
      rw [← List.take_append_drop n
        ((storeGroup df st).mergeSort finalScoreDesc)] at hs
      have h3 := (List.pairwise_append.mp hs).2.2
      have h4 := h3 x hx y hy
      simpa [finalScoreDesc] using h4
  · have hblk2 : ∀ (k : String) (b : FlagshipOut),
        b ∈ (List.enumFrom 1
            ((display_flagship_products_per_store df n).filter
              (fun r => decide (r.source_store_name = k)))).map
          (fun p =>
            ({ source_store_name := p.2.source_store_name
               store_rank := p.1
               product_url := p.2.product_url
               title := p.2.title
               final_score := p.2.final_score
               source_platform := p.2.source_platform } : FlagshipOut)) →
        b.source_store_name = k := by
      intro k b hb
      obtain ⟨p, hp, hpe⟩ := List.mem_map.mp hb
      have hp2 := snd_mem_of_mem_enumFrom _ _ _ hp
      have hp3 := (List.mem_filter.mp hp2).2
      rw [← hpe]
      simpa using hp3
    have hsave := filter_flatMap_of_key FlagshipOut.source_store_name
      (fun stk =>
        (List.enumFrom 1
            ((display_flagship_products_per_store df n).filter
              (fun r => decide (r.source_store_name = stk)))).map
          (fun p =>
            ({ source_store_name := p.2.source_store_name
               store_rank := p.1
               product_url := p.2.product_url
               title := p.2.title
               final_score := p.2.final_score
               source_platform := p.2.source_platform } : FlagshipOut)))
      hblk2 st (flagshipKeys (display_flagship_products_per_store df n))
      (flagshipKeys_nodup _)
    show (((flagshipKeys (display_flagship_products_per_store df n)).flatMap
          (fun stk =>
            (List.enumFrom 1
                ((display_flagship_products_per_store df n).filter
                  (fun r => decide (r.source_store_name = stk)))).map
              (fun p =>
                ({ source_store_name := p.2.source_store_name
                   store_rank := p.1
                   product_url := p.2.product_url
                   title := p.2.title
                   final_score := p.2.final_score
                   source_platform := p.2.source_platform } : FlagshipOut)))).filter
        (fun o => decide (o.source_store_name = st))).map
        FlagshipOut.store_rank =
      List.range' 1 (topNOfGroup df n st).length
    rw [hsave]
    by_cases hstf : st ∈ flagshipKeys (display_flagship_products_per_store df n)
    · rw [if_pos hstf]
      dsimp only
      rw [hfil, List.map_map]
      exact map_fst_enumFrom _ _
    · rw [if_neg hstf]
      have hnone : (display_flagship_products_per_store df n).filter
          (fun r => decide (r.source_store_name = st)) = [] := by
        rw [List.filter_eq_nil_iff]
        intro r hrmem hpred
        exact hstf (mem_flagshipKeys.mpr ⟨r, hrmem, by simpa using hpred⟩)
      rw [hfil] at hnone
      rw [hnone]
      rfl

/-- Claim C5 witness: the singleton scored set `[scWA]`, store `"StoreA"`,
`n = 1`. -/
theorem flagship_spec_witness :
    "StoreA" ∈ storeKeys [scWA] ∧
    (topNOfGroup [scWA] 1 "StoreA").length =
      min 1 (storeGroup [scWA] "StoreA").length ∧
    (topNOfGroup [scWA] 1 "StoreA").Pairwise
      (fun a b => b.final_score ≤ a.final_score) ∧
    (∃ rest,
      List.Perm (topNOfGroup [scWA] 1 "StoreA" ++ rest)
        (storeGroup [scWA] "StoreA") ∧
      ∀ y ∈ rest, ∀ x ∈ topNOfGroup [scWA] 1 "StoreA",
        y.final_score ≤ x.final_score) ∧
    (display_flagship_products_per_store [scWA] 1).filter
        (fun r => decide (r.source_store_name = "StoreA")) =
      topNOfGroup [scWA] 1 "StoreA" ∧
    ((save_flagship_rows (display_flagship_products_per_store [scWA] 1)).filter
          (fun o => decide (o.source_store_name = "StoreA"))).map
        FlagshipOut.store_rank =
      List.range' 1 (topNOfGroup [scWA] 1 "StoreA").length :=
  flagship_spec [scWA] 1 "StoreA" (by decide)

end Selection
